import Mathlib

/-!
Shallow embedding of the libcpath path library (src/libcpath/libcpath_path.c)
and proofs about it.

Modelling conventions:
* C strings are `List Char`; a separate `path_length` argument mirrors the C
  calling convention where the caller passes the string length (the string's
  actual `strlen`).  `charAt p i` models reading `path[i]`; reads past the end
  of the modelled list yield the NUL character.
* `size_t` values are `Nat` together with explicit wrap-around arithmetic
  (`addSize`, `subSize`) modulo `2 ^ 64`; the modelled platform is LP64 with
  `SSIZE_MAX = 2 ^ 63 - 1`.
* Fallible functions return `Except ErrorKind`; the error kinds follow the
  spec's reduced taxonomy (section 7).  Output-pointer checks of the C code
  (null output, value-already-set) have no counterpart in the value-based
  model and are dropped; all other guards are translated literally.
* `malloc` is modelled as succeeding exactly for request sizes that fit in
  `ssize_t` (`malloc(0)` succeeds, as on glibc).
* The platform constants `LIBCPATH_SEPARATOR` and `LIBCPATH_ESCAPE_CHARACTER`
  come from libcpath_definitions.h, which is not under src/.  They are
  modelled from the spec: the POSIX separator is `/` and the escape character
  is the backslash used in the spec's `\xHH` escape notation; the Windows
  separator is `\`.
* The segment-list collaborator (libcsplit) is not part of this repository
  and is declared out of scope by the spec.  It is modelled from the spec:
  "splits a string on a separator into an ordered, mutable list of segments",
  i.e. `List.splitOn`, with cleared segments represented as `none`.
-/

namespace Libcpath

/-- Maximum value of `size_t` on the modelled LP64 platform. -/
def SIZE_MAX : Nat := 2 ^ 64 - 1

/-- Maximum value of `ssize_t` on the modelled LP64 platform. -/
def SSIZE_MAX : Nat := 2 ^ 63 - 1

/-- Wrap-around `size_t` addition. -/
def addSize (a b : Nat) : Nat := (a + b) % 2 ^ 64

/-- Wrap-around `size_t` subtraction. -/
def subSize (a b : Nat) : Nat := (a % 2 ^ 64 + (2 ^ 64 - b % 2 ^ 64)) % 2 ^ 64

/-- Error kinds, following the spec's reduced error taxonomy (spec section 7). -/
inductive ErrorKind where
  | invalidArgument
  | valueOutOfBounds
  | valueMissing
  | valueTooSmall
  | allocationFailure
  | osCallFailure
deriving DecidableEq, Repr

/-- Path types: the LIBCPATH_TYPE_* constants. -/
inductive PathType where
  | relative
  | absolute
  | device
  | unc
  | extendedLength
  | extendedLengthUnc
deriving DecidableEq, Repr

/-- Reading `path[i]` from a modelled C string. -/
def charAt (p : List Char) (i : Nat) : Char := p.getD i (Char.ofNat 0)

/-- Embedding of `libcpath_path_get_path_type` (WINAPI variant,
src/libcpath/libcpath_path.c lines 546-655).  The `path` argument is an
`Option` so that the C null-pointer check can be expressed. -/
def libcpath_path_get_path_type (path : Option (List Char)) (path_length : Nat) :
    Except ErrorKind PathType :=
  match path with
  | none => .error .invalidArgument
  | some p =>
    if path_length = 0 then .error .invalidArgument
    else if path_length > SSIZE_MAX - 1 then .error .invalidArgument
    else if 4 ≤ path_length ∧ charAt p 0 = '\\' ∧ charAt p 1 = '\\' ∧
        (charAt p 2 = '.' ∨ charAt p 2 = '?') ∧ charAt p 3 = '\\' then
      if charAt p 2 = '.' then .ok .device
      else if 8 ≤ path_length ∧ charAt p 4 = 'U' ∧ charAt p 5 = 'N' ∧
          charAt p 6 = 'C' ∧ charAt p 7 = '\\' then .ok .extendedLengthUnc
      else .ok .extendedLength
    else if 2 ≤ path_length ∧ charAt p 0 = '\\' ∧ charAt p 1 = '\\' then .ok .unc
    else if charAt p 0 = '\\' then .ok .absolute
    else if 3 ≤ path_length ∧ charAt p 1 = ':' ∧ charAt p 2 = '\\' ∧
        (('A' ≤ charAt p 0 ∧ charAt p 0 ≤ 'Z') ∨ ('a' ≤ charAt p 0 ∧ charAt p 0 ≤ 'z')) then
      .ok .absolute
    else .ok .relative

/-- The loop body of the `for` loops in `libcpath_path_get_volume_name`:
scan from `idx` while `idx < path_length` (`fuel = path_length - idx`
iterations remain) and stop one past the first `\`, or at `path_length`. -/
def scanToSeparatorGo (p : List Char) (idx : Nat) : Nat → Nat
  | 0 => idx
  | fuel + 1 =>
    if charAt p idx = '\\' then idx + 1 else scanToSeparatorGo p (idx + 1) fuel

/-- The `for` loops in `libcpath_path_get_volume_name` that scan from `idx`
to the first `\` (returning the index one past it) or to `path_length`. -/
def scanToSeparator (p : List Char) (path_length : Nat) (idx : Nat) : Nat :=
  scanToSeparatorGo p idx (path_length - idx)

/-- Result of `libcpath_path_get_volume_name`: the borrowed volume-name slice,
its length, and the directory-name index. -/
structure VolumeNameResult where
  volume_name : Option (List Char)
  volume_name_length : Nat
  directory_name_index : Nat
deriving DecidableEq, Repr

/-- The `volume_name_index` computed at the start of
`libcpath_path_get_volume_name` from the path prefix (src/libcpath/
libcpath_path.c lines 743-782): 4 for a device or plain extended-length
prefix, 8 for an extended-length UNC prefix, 2 for a UNC prefix, 0 otherwise. -/
def volumeNameIndex (p : List Char) (path_length : Nat) : Nat :=
  if 4 ≤ path_length ∧ charAt p 0 = '\\' ∧ charAt p 1 = '\\' ∧
      (charAt p 2 = '.' ∨ charAt p 2 = '?') ∧ charAt p 3 = '\\' then
    if charAt p 2 = '.' then 4
    else if 8 ≤ path_length ∧ charAt p 4 = 'U' ∧ charAt p 5 = 'N' ∧
        charAt p 6 = 'C' ∧ charAt p 7 = '\\' then 8
    else 4
  else if 2 ≤ path_length ∧ charAt p 0 = '\\' ∧ charAt p 1 = '\\' then 2
  else 0

/-- Embedding of `libcpath_path_get_volume_name` (WINAPI variant,
src/libcpath/libcpath_path.c lines 660-877).  The volume-name slice is the
list of characters the borrowed C pointer and length denote. -/
def libcpath_path_get_volume_name (path : Option (List Char)) (path_length : Nat) :
    Except ErrorKind VolumeNameResult :=
  match path with
  | none => .error .invalidArgument
  | some p =>
    if path_length = 0 then .error .invalidArgument
    else if path_length > SSIZE_MAX - 1 then .error .invalidArgument
    else
      let volume_name_index : Nat := volumeNameIndex p path_length
      if 2 ≤ path_length ∧ volume_name_index ≤ path_length - 2 ∧
          charAt p (volume_name_index + 1) = ':' ∧
          (('A' ≤ charAt p volume_name_index ∧ charAt p volume_name_index ≤ 'Z') ∨
           ('a' ≤ charAt p volume_name_index ∧ charAt p volume_name_index ≤ 'z')) then
        let path_index0 := volume_name_index + 2
        let path_index :=
          if path_index0 < path_length ∧ charAt p path_index0 = '\\' then path_index0 + 1
          else path_index0
        let len0 := path_index - volume_name_index
        let volume_name_length :=
          if charAt p (path_index - 1) = '\\' then subSize len0 1 else len0
        .ok ⟨some ((p.drop volume_name_index).take volume_name_length),
             volume_name_length, path_index⟩
      else if volume_name_index = 4 then
        let path_index := scanToSeparator p path_length 4
        let len0 := path_index - 4
        let volume_name_length :=
          if charAt p (path_index - 1) = '\\' then subSize len0 1 else len0
        .ok ⟨some ((p.drop 4).take volume_name_length), volume_name_length, path_index⟩
      else if volume_name_index = 2 ∨ volume_name_index = 8 then
        let share_name_index := scanToSeparator p path_length volume_name_index
        if share_name_index > path_length then .error .valueMissing
        else
          let path_index := scanToSeparator p path_length share_name_index
          let len0 := path_index - volume_name_index
          let volume_name_length :=
            if charAt p (path_index - 1) = '\\' then subSize len0 1 else len0
          .ok ⟨some ((p.drop volume_name_index).take volume_name_length),
               volume_name_length, path_index⟩
      else .ok ⟨none, 0, 0⟩

/-- Modelled from the spec: the POSIX escape character used in the spec's
`\xHH` escape notation (libcpath_definitions.h is not under src/). -/
def LIBCPATH_ESCAPE_CHARACTER : Char := '\\'

/-- Modelled from the spec: the POSIX path separator
(libcpath_definitions.h is not under src/). -/
def LIBCPATH_SEPARATOR : Char := '/'

/-- Code point of a character, as the C `char` value it compares against. -/
def charCode (c : Char) : Int := c.toNat

/-- Embedding of `libcpath_path_get_sanitized_character_size` (POSIX variant,
src/libcpath/libcpath_path.c lines 2628-2682).  The `character` argument is
the value of the signed C `char`, in `[-128, 127]`.  The function cannot fail
once the output pointer exists, so it returns the size directly. -/
def libcpath_path_get_sanitized_character_size (character : Int) : Nat :=
  if 0 ≤ character ∧ character ≤ 0x1f then 4
  else if character = charCode LIBCPATH_ESCAPE_CHARACTER then 2
  else if character = charCode '!' ∨ character = charCode '$' ∨
      character = charCode '%' ∨ character = charCode '&' ∨
      character = charCode '*' ∨ character = charCode '+' ∨
      character = charCode ':' ∨ character = charCode ';' ∨
      character = charCode '<' ∨ character = charCode '>' ∨
      character = charCode '?' ∨ character = charCode '|' ∨
      character = 0x7f then 4
  else 1

/-- The nibble-to-character conversion inside
`libcpath_path_get_sanitized_character`: `if (nibble > 10) nibble += 'a' - 10;
else nibble += '0';`. -/
def nibbleToChar (n : Int) : Char :=
  if n > 10 then Char.ofNat (n + 97 - 10).toNat else Char.ofNat (n + 48).toNat

/-- The characters stored into the output buffer by
`libcpath_path_get_sanitized_character` for a given sanitized size
(src/libcpath/libcpath_path.c lines 2771-2805).  The lower and upper nibble
are `character & 0x0f` and `(character >> 4) & 0x0f`; on the signed values
these are `Int.emod _ 16` and floor division by 16 followed by `Int.emod _ 16`. -/
def sanitizedCharacterChars (character : Int) (sanitized_character_size : Nat) :
    List Char :=
  if sanitized_character_size = 1 then [Char.ofNat (character.emod 256).toNat]
  else if sanitized_character_size = 2 then
    [LIBCPATH_ESCAPE_CHARACTER, LIBCPATH_ESCAPE_CHARACTER]
  else if sanitized_character_size = 4 then
    [LIBCPATH_ESCAPE_CHARACTER, 'x',
     nibbleToChar ((Int.fdiv character 16).emod 16),
     nibbleToChar (character.emod 16)]
  else []

/-- Embedding of `libcpath_path_get_sanitized_character` (POSIX variant,
src/libcpath/libcpath_path.c lines 2687-2809).  Returns the characters
written and the updated sanitized-path index. -/
def libcpath_path_get_sanitized_character (character : Int)
    (sanitized_character_size : Nat) (sanitized_path_size : Nat)
    (sanitized_path_index : Nat) : Except ErrorKind (List Char × Nat) :=
  if sanitized_character_size ≠ 1 ∧ sanitized_character_size ≠ 2 ∧
      sanitized_character_size ≠ 4 then .error .valueOutOfBounds
  else if sanitized_path_size > SSIZE_MAX then .error .invalidArgument
  else if sanitized_path_index > sanitized_path_size then .error .valueOutOfBounds
  else if sanitized_character_size > sanitized_path_size ∨
      sanitized_path_index > sanitized_path_size - sanitized_character_size then
    .error .valueTooSmall
  else
    .ok (sanitizedCharacterChars character sanitized_character_size,
         sanitized_path_index + sanitized_character_size)

/-!
The segment-list collaborator (libcsplit).  Modelled from the spec: the split
of a string on the separator is `List.splitOn`; each stored segment is
`some content` with C segment size `content.length + 1` (the size counts the
terminating NUL), and a cleared segment (`set_segment_by_index(..., NULL, 0)`)
is `none` with size `0`.
-/

/-- A split string: the ordered, mutable list of segments. -/
abbrev Segs := List (Option (List Char))

/-- C size of a stored segment (the size includes the end-of-string character;
a cleared segment has size 0). -/
def segmentSize : Option (List Char) → Nat
  | none => 0
  | some c => c.length + 1

/-- Modelled from the spec: `libcsplit_*_string_split` of the string with
content `s` on separator `sep`. -/
def stringSplit (sep : Char) (s : List Char) : Segs :=
  (s.splitOn sep).map some

/-- `libcsplit_*_split_string_get_segment_by_index`: fails on an
out-of-range index, otherwise returns the stored segment (possibly the
cleared `none`). -/
def segGet (segs : Segs) (i : Int) : Except ErrorKind (Option (List Char)) :=
  if 0 ≤ i ∧ i < (segs.length : Int) then .ok (segs.getD i.toNat none)
  else .error .invalidArgument

/-- The backward scan of `libcpath_path_get_full_path` that looks for the
previous path split value that contains a name: starting from the (already
cleared) last-used index, decrement while the index is positive and stop at
the first segment with nonzero size. -/
def scanBack (segs : Segs) : Nat → Nat
  | 0 => 0
  | n + 1 => if segmentSize (segs.getD n none) ≠ 0 then n else scanBack segs n

/-- State of the first (size-accounting and segment-elision) pass of
`libcpath_path_get_full_path`. -/
structure Pass1State where
  cwdSegs : Option Segs
  cwdIdx : Int
  pathSegs : Segs
  lastUsed : Int
  size : Nat
deriving DecidableEq, Repr

/-- The `..` handling inside the first-pass loop of
`libcpath_path_get_full_path`: pop one directory level from the working
directory when its split list exists and no input segment has contributed a
name yet, else from the most recent used input segment (rescanning for the
previous name), else do nothing. -/
def pass1Pop (st : Pass1State) : Except ErrorKind Pass1State :=
  if h : st.cwdSegs.isSome ∧ st.lastUsed = -1 then
    match segGet (st.cwdSegs.get h.1) st.cwdIdx with
    | .error e => .error e
    | .ok none => .error .valueMissing
    | .ok (some c) =>
      .ok { st with cwdSegs := some ((st.cwdSegs.get h.1).set st.cwdIdx.toNat none),
                    cwdIdx := st.cwdIdx - 1,
                    size := subSize st.size (c.length + 1) }
  else if st.lastUsed ≥ 0 then
    match segGet st.pathSegs st.lastUsed with
    | .error e => .error e
    | .ok none => .error .valueMissing
    | .ok (some c) =>
      .ok { st with pathSegs := st.pathSegs.set st.lastUsed.toNat none,
                    lastUsed := (scanBack (st.pathSegs.set st.lastUsed.toNat none)
                                  st.lastUsed.toNat : Int),
                    size := subSize st.size (c.length + 1) }
  else .ok st

/-- One iteration of the first pass of `libcpath_path_get_full_path` over
path segment `i` (the loop bodies at src/libcpath/libcpath_path.c lines
1367-1616 (WINAPI) and 2144-2393 (POSIX), which are identical). -/
def pass1Step (st : Pass1State) (i : Nat) : Except ErrorKind Pass1State :=
  match segGet st.pathSegs i with
  | .error e => .error e
  | .ok none => .error .valueMissing
  | .ok (some content) =>
    if content.length + 1 = 3 ∧ charAt content 0 = '.' ∧ charAt content 1 = '.' then
      match pass1Pop st with
      | .error e => .error e
      | .ok st' => .ok { st' with pathSegs := st'.pathSegs.set i none }
    else if content.length + 1 = 2 ∧ charAt content 0 = '.' then
      .ok { st with pathSegs := st.pathSegs.set i none }
    else if content.length + 1 ≤ 1 then
      .ok { st with pathSegs := st.pathSegs.set i none }
    else
      .ok { st with size := addSize st.size (content.length + 1), lastUsed := (i : Int) }

/-- The first pass of `libcpath_path_get_full_path`: iterate `pass1Step` over
all path segments in order. -/
def pass1 (cwdSegs : Option Segs) (cwdIdx : Int) (pathSegs : Segs) (size0 : Nat) :
    Except ErrorKind Pass1State :=
  (List.range pathSegs.length).foldlM pass1Step
    { cwdSegs := cwdSegs, cwdIdx := cwdIdx, pathSegs := pathSegs,
      lastUsed := -1, size := size0 }

/-- The write loops of `libcpath_path_get_full_path`: every surviving
(nonzero-size) segment is written followed by one separator. -/
def writeSegments (sep : Char) (segs : Segs) : List Char :=
  segs.foldl (fun acc seg =>
    match seg with
    | none => acc
    | some c => acc ++ c ++ [sep]) []

/-- Result of `libcpath_path_get_full_path`: the characters emitted by the
write pass, in order, and the reported `full_path_size`.  The C code finally
overwrites the last emitted character (the trailing separator, at index
`written.length - 1`) with the NUL terminator, so the resulting C string is
`written.dropLast`; the buffer holds `size` bytes, so the write pass stays in
bounds exactly when `written.length ≤ size`. -/
structure FullPathResult where
  written : List Char
  size : Nat
deriving DecidableEq, Repr

/-- The C string left in the output buffer. -/
def FullPathResult.str (r : FullPathResult) : List Char := r.written.dropLast

/-- Steps of the POSIX `libcpath_path_get_full_path` after the working
directory has (or has not) been obtained (src/libcpath/libcpath_path.c lines
2038-2555). -/
def posixResolveCore (path : List Char) (absolute : Bool)
    (current_directory : Option (List Char)) : Except ErrorKind FullPathResult :=
  let cwdSplit : Option Segs := current_directory.map (stringSplit '/')
  let pathSegs : Segs := stringSplit '/' path
  let size0? : Except ErrorKind Nat :=
    if absolute then .ok 1
    else
      match current_directory with
      | none => .error .valueMissing
      | some c =>
        .ok (c.length + (if 1 ≤ c.length ∧ charAt c (c.length - 1) ≠ '/' then 1 else 0))
  match size0? with
  | .error e => .error e
  | .ok size0 =>
    let cwdIdx : Int :=
      match cwdSplit with
      | some segs => (segs.length : Int) - 1
      | none => 0
    match pass1 cwdSplit cwdIdx pathSegs size0 with
    | .error e => .error e
    | .ok st =>
      if st.size > SSIZE_MAX then .error .allocationFailure
      else
        let written :=
          (if absolute then ['/'] else [])
          ++ (if absolute = false ∧ cwdSplit.isSome then
                writeSegments '/' (st.cwdSegs.getD []) else [])
          ++ writeSegments '/' st.pathSegs
        .ok ⟨written, st.size⟩

/-- Embedding of the POSIX `libcpath_path_get_full_path`
(src/libcpath/libcpath_path.c lines 1923-2621).  `cwd` is the ambient current
working directory the `getcwd` collaborator would report; `getcwd` writes into
a `PATH_MAX` (4096) byte buffer and fails when the directory does not fit. -/
def libcpath_path_get_full_path_posix (cwd : List Char) (path : List Char) :
    Except ErrorKind FullPathResult :=
  if path.length = 0 then .error .invalidArgument
  else if path.length > SSIZE_MAX - 1 then .error .invalidArgument
  else if charAt path 0 = '/' then posixResolveCore path true none
  else if cwd.length + 1 > 4096 then .error .osCallFailure
  else posixResolveCore path false (some cwd)

/-- Steps of the WINAPI `libcpath_path_get_full_path` after the working
directory has (or has not) been obtained (src/libcpath/libcpath_path.c lines
1260-1841).  `volume_name`/`volume_name_length` are the effective volume (from
the path, or re-extracted from the current working directory when that was
looked up), and `current_directory_name_index` is the directory-name index
within the current working directory. -/
def windowsResolveCore (path : List Char) (path_type : PathType)
    (path_directory_name_index : Nat) (volume_name : Option (List Char))
    (volume_name_length : Nat) (current_directory : Option (List Char))
    (current_directory_name_index : Nat) : Except ErrorKind FullPathResult :=
  let current_directory_size : Nat :=
    match current_directory with
    | some c => c.length + 1
    | none => 0
  let cwdSplit : Option Segs :=
    match current_directory with
    | some c =>
      if current_directory_name_index < current_directory_size then
        some (stringSplit '\\' (c.drop current_directory_name_index))
      else none
    | none => none
  let pathSegs : Segs := stringSplit '\\' (path.drop path_directory_name_index)
  let size0 : Nat :=
    addSize
      (addSize
        (addSize 4
          (match volume_name with
           | some _ => addSize volume_name_length 1
           | none => 0))
        (if path_type = .extendedLengthUnc ∨ path_type = .unc then 4 else 0))
      (if path_type = .relative ∧ current_directory_name_index < current_directory_size then
        (current_directory_size - (current_directory_name_index + 1)) +
          (if 2 ≤ current_directory_size ∧
              charAt (current_directory.getD []) (current_directory_size - 2) ≠ '\\' then
            1 else 0)
      else 0)
  let cwdIdx : Int :=
    match cwdSplit with
    | some segs => (segs.length : Int) - 1
    | none => 0
  match pass1 cwdSplit cwdIdx pathSegs size0 with
  | .error e => .error e
  | .ok st =>
    if st.size > SSIZE_MAX then .error .allocationFailure
    else
      let prefixChars :=
        if path_type = .device then "\\\\.\\".toList else "\\\\?\\".toList
      let written :=
        prefixChars
        ++ (if path_type = .extendedLengthUnc ∨ path_type = .unc then
              "UNC\\".toList else [])
        ++ (match volume_name with
            | some v => v ++ ['\\']
            | none => [])
        ++ (if path_type = .relative ∧ cwdSplit.isSome then
              writeSegments '\\' (st.cwdSegs.getD []) else [])
        ++ writeSegments '\\' st.pathSegs
      .ok ⟨written, st.size⟩

/-- Embedding of the WINAPI `libcpath_path_get_full_path`
(src/libcpath/libcpath_path.c lines 1084-1907).  `cwd` is the current working
directory string the `GetCurrentDirectory` collaborator (possibly after
switching to the path's volume) would report; its reported size is
`cwd.length + 1`. -/
def libcpath_path_get_full_path_windows (cwd : List Char) (path : List Char) :
    Except ErrorKind FullPathResult :=
  if path.length = 0 then .error .invalidArgument
  else if path.length > SSIZE_MAX - 1 then .error .invalidArgument
  else
    match libcpath_path_get_path_type (some path) path.length with
    | .error e => .error e
    | .ok path_type =>
      match libcpath_path_get_volume_name (some path) path.length with
      | .error e => .error e
      | .ok pv =>
        if path_type ≠ .device ∧ path_type ≠ .extendedLength ∧
            path_type ≠ .extendedLengthUnc ∧ path_type ≠ .unc then
          if pv.volume_name.isSome ∧ pv.volume_name_length > SSIZE_MAX - 1 then
            .error .invalidArgument
          else
            match libcpath_path_get_volume_name (some cwd) cwd.length with
            | .error e => .error e
            | .ok cv =>
              windowsResolveCore path path_type pv.directory_name_index
                cv.volume_name cv.volume_name_length (some cwd)
                cv.directory_name_index
        else
          windowsResolveCore path path_type pv.directory_name_index
            pv.volume_name pv.volume_name_length none 0

/-- The translation of the C `while` loop in `libcpath_path_join` that strips
trailing separators from the directory name: decrement the length while the
last character within it is the separator. -/
def joinStripTrailing (directory_name : List Char) : Nat → Nat
  | 0 => 0
  | n + 1 =>
    if charAt directory_name n ≠ LIBCPATH_SEPARATOR then n + 1
    else joinStripTrailing directory_name n

/-- The translation of the C `while` loop in `libcpath_path_join` that strips
leading separators from the filename: advance the index and decrement the
remaining length while the indexed character is the separator.  Returns the
final `(filename_index, filename_length)`. -/
def joinStripLeading (filename : List Char) (filename_index : Nat) :
    Nat → Nat × Nat
  | 0 => (filename_index, 0)
  | n + 1 =>
    if charAt filename filename_index ≠ LIBCPATH_SEPARATOR then (filename_index, n + 1)
    else joinStripLeading filename (filename_index + 1) n

/-- Embedding of `libcpath_path_join` (POSIX variant,
src/libcpath/libcpath_path.c lines 3214-3387).  Returns the characters of the
combined path (without the NUL written at index `path_size - 1`) and the
reported `path_size`. -/
def libcpath_path_join (directory_name : List Char) (directory_name_length : Nat)
    (filename : List Char) (filename_length : Nat) :
    Except ErrorKind (List Char × Nat) :=
  if directory_name_length > SSIZE_MAX then .error .invalidArgument
  else if filename_length > SSIZE_MAX then .error .invalidArgument
  else
    let d := joinStripTrailing directory_name directory_name_length
    let fl := joinStripLeading filename 0 filename_length
    .ok ((directory_name.take d) ++
          LIBCPATH_SEPARATOR :: ((filename.drop fl.1).take fl.2),
         d + fl.2 + 2)

/-- A normalized path body: name segments joined by single separators
(used to state properties about already-normalized paths). -/
def joinSep (sep : Char) : List (List Char) → List Char
  | [] => []
  | [c] => c
  | c :: c2 :: rest => c ++ sep :: joinSep sep (c2 :: rest)

/-- A normalized path segment: nonempty, not a dot segment, and free of the
separator. -/
def validSegment (sep : Char) (c : List Char) : Prop :=
  c ≠ [] ∧ c ≠ ['.'] ∧ c ≠ ['.', '.'] ∧ sep ∉ c

instance validSegment.instDecidable (sep : Char) (c : List Char) :
    Decidable (validSegment sep c) :=
  inferInstanceAs (Decidable (c ≠ [] ∧ c ≠ ['.'] ∧ c ≠ ['.', '.'] ∧ sep ∉ c))

/-- An ASCII drive letter, as tested by the classifier. -/
def isDriveLetter (d : Char) : Prop :=
  ('A' ≤ d ∧ d ≤ 'Z') ∨ ('a' ≤ d ∧ d ≤ 'z')

instance isDriveLetter.instDecidable (d : Char) : Decidable (isDriveLetter d) :=
  inferInstanceAs (Decidable (('A' ≤ d ∧ d ≤ 'Z') ∨ ('a' ≤ d ∧ d ≤ 'z')))

/-- What the write loop emits for one stored segment: its content followed by
one separator, or nothing for a cleared segment. -/
def segWrite (sep : Char) : Option (List Char) → List Char
  | none => []
  | some c => c ++ [sep]

/-- Total C size of a list of stored segments. -/
def segmentsTotalSize (segs : List (List Char)) : Nat :=
  (segs.map (fun c => c.length + 1)).sum

/-!  Theorems about the embedded program. -/

/-- A successful `libcpath_path_get_path_type` implies that the length guards
passed. -/
theorem getPathType_ok_bounds {p : List Char} {n : Nat} {t : PathType}
    (h : libcpath_path_get_path_type (some p) n = .ok t) :
    ¬n = 0 ∧ ¬n > SSIZE_MAX - 1 := by
  by_cases h0 : n = 0
  · rw [libcpath_path_get_path_type, if_pos h0] at h
    exact absurd h (by simp)
  · refine ⟨h0, fun h1 => ?_⟩
    rw [libcpath_path_get_path_type, if_neg h0, if_pos h1] at h
    exact absurd h (by simp)

/-- The separator scan never moves past `path_length`. -/
theorem scanToSeparatorGo_le (p : List Char) :
    ∀ (fuel idx : Nat), scanToSeparatorGo p idx fuel ≤ idx + fuel := by
  intro fuel
  induction fuel with
  | zero => intro idx; simp [scanToSeparatorGo]
  | succ n ih =>
    intro idx
    rw [scanToSeparatorGo]
    split
    · omega
    · have := ih (idx + 1); omega

/-- The separator scan, started no later than `path_length`, ends no later
than `path_length` — hence `share_name_index > path_length` can never hold. -/
theorem scanToSeparator_le (p : List Char) (path_length idx : Nat)
    (h : idx ≤ path_length) : scanToSeparator p path_length idx ≤ path_length := by
  have := scanToSeparatorGo_le p (path_length - idx) idx
  rw [scanToSeparator]
  omega

/-- The volume-name index is never beyond the path length. -/
theorem volumeNameIndex_le (p : List Char) (n : Nat) : volumeNameIndex p n ≤ n := by
  rw [volumeNameIndex]
  split_ifs <;> omega

/-- C5: classify_path applies its Windows-syntax rules in order, first match
winning; on the spec's classification table it returns Absolute for `C:\foo`
and `\foo`, Relative for `foo\bar`, UNC for `\\server\share`, ExtendedLength
for `\\?\C:\foo`, ExtendedLengthUNC for `\\?\UNC\server\share`, and Device
for `\\.\PhysicalDrive0`. -/
theorem c5_classification_table :
    libcpath_path_get_path_type (some ("C:\\foo".toList)) 6 = .ok .absolute
    ∧ libcpath_path_get_path_type (some ("\\foo".toList)) 4 = .ok .absolute
    ∧ libcpath_path_get_path_type (some ("foo\\bar".toList)) 7 = .ok .relative
    ∧ libcpath_path_get_path_type (some ("\\\\server\\share".toList)) 14 = .ok .unc
    ∧ libcpath_path_get_path_type (some ("\\\\?\\C:\\foo".toList)) 10 =
        .ok .extendedLength
    ∧ libcpath_path_get_path_type (some ("\\\\?\\UNC\\server\\share".toList)) 20 =
        .ok .extendedLengthUnc
    ∧ libcpath_path_get_path_type (some ("\\\\.\\PhysicalDrive0".toList)) 18 =
        .ok .device := by
  refine ⟨?_, ?_, ?_, ?_, ?_, ?_, ?_⟩ <;> rfl

/-- C2: contrary to the claim, get_volume_name does not fail with the
missing-share-name (ValueMissing) error on a UNC-style path whose server name
is not followed by a separator: on `\\server` (no share) it succeeds,
returning volume name `server` of length 6 and directory-name index 8.  The
scan for the share name can never leave `share_name_index` strictly greater
than `path_length`, so the `missing share name` branch of the source is
unreachable. -/
theorem c2_missing_share_name_not_detected :
    libcpath_path_get_volume_name (some ("\\\\server".toList)) 8 =
      .ok ⟨some ("server".toList), 6, 8⟩ := by
  rfl

/-- C3: contrary to the claim, a nibble with value exactly 10 is rendered by
the sanitizer as `':'` (`'0' + 10`), not as the lowercase hex letter `'a'`,
because the source tests `nibble > 10` instead of `nibble >= 10`.  For the
control character 0x0a the emitted 4-character sequence is `\x0:`, whose last
character is not a lowercase hex digit.  Nibbles 11-15 and 0-9 are rendered
correctly, and the escape character itself is emitted as the doubled escape
character as claimed. -/
theorem c3_nibble_ten_renders_colon :
    libcpath_path_get_sanitized_character_size 10 = 4
    ∧ sanitizedCharacterChars 10 4 = ['\\', 'x', '0', ':']
    ∧ ¬('a' ≤ ':' ∧ ':' ≤ 'f') ∧ (':' : Char) ≠ 'a'
    ∧ sanitizedCharacterChars (charCode LIBCPATH_ESCAPE_CHARACTER)
        (libcpath_path_get_sanitized_character_size
          (charCode LIBCPATH_ESCAPE_CHARACTER)) =
        [LIBCPATH_ESCAPE_CHARACTER, LIBCPATH_ESCAPE_CHARACTER]
    ∧ sanitizedCharacterChars 11 4 = ['\\', 'x', '0', 'b'] := by
  refine ⟨rfl, rfl, by decide, by decide, rfl, rfl⟩

/-- C1: contrary to the claim, the predicted size of the POSIX
get_full_path does not always equal the number of characters the write pass
emits.  With current working directory `/` and path `a` the call succeeds and
predicts `full_path_size = 3`, but the write pass emits the 4 characters
`//a/` (the final one, overwritten by the terminator, lands one byte past the
3-byte buffer): the reported size differs from the written count and from the
result-string length plus one. -/
theorem c1_predicted_size_mismatch :
    libcpath_path_get_full_path_posix ("/".toList) ("a".toList) =
      .ok ⟨("//a/".toList), 3⟩
    ∧ ("//a/".toList).length ≠ 3
    ∧ (FullPathResult.str ⟨("//a/".toList), 3⟩).length + 1 ≠ 3 := by
  refine ⟨rfl, by decide, by decide⟩

/-- C4: in the POSIX resolver, a `..` segment met while no current-working-
directory segment list exists and no earlier input segment has contributed a
name (`last_used_path_segment_index` is still -1) only clears the `..`
segment itself: the predicted size is unchanged, `lastUsed` stays -1, and the
step cannot fail.  Consequently resolving the absolute path `/../../etc`
(under any ambient working directory) succeeds and yields `/etc` with
predicted size 5. -/
theorem c4_parent_above_root_absorbed :
    (∀ cwd, libcpath_path_get_full_path_posix cwd ("/../../etc".toList) =
      .ok ⟨("/etc/".toList), 5⟩
      ∧ FullPathResult.str ⟨("/etc/".toList), 5⟩ = ("/etc".toList))
    ∧ (∀ (st : Pass1State) (i : Nat), st.cwdSegs = none → st.lastUsed = -1 →
      (i : Int) < (st.pathSegs.length : Int) →
      st.pathSegs.getD i none = some (['.', '.']) →
      pass1Step st i = .ok { st with pathSegs := st.pathSegs.set i none }) := by
  constructor
  · exact fun _ => ⟨rfl, rfl⟩
  · intro st i h1 h2 h3 h4
    obtain ⟨cs, ci, ps, lu, sz⟩ := st
    simp only at h1 h2 h3 h4
    subst h1
    subst h2
    simp only [pass1Step, segGet, Int.natCast_nonneg, true_and, h3, if_pos,
      Int.toNat_natCast, h4]
    rfl

/-- Witness for `c4_parent_above_root_absorbed` at concrete inputs. -/
theorem c4_parent_above_root_absorbed_witness :
    libcpath_path_get_full_path_posix [] ("/../../etc".toList) =
      .ok ⟨("/etc/".toList), 5⟩
    ∧ pass1Step ⟨none, 0, [some (['.', '.'])], -1, 7⟩ 0 =
      .ok ⟨none, 0, [none], -1, 7⟩ := by
  refine ⟨(c4_parent_above_root_absorbed.1 []).1, ?_⟩
  have h := c4_parent_above_root_absorbed.2 ⟨none, 0, [some (['.', '.'])], -1, 7⟩ 0
    rfl rfl (by decide) rfl
  simpa using h

/-- C6: when the Windows resolver is given a path classified as Device,
ExtendedLength, ExtendedLengthUNC, or UNC, it never consults the working
directory: its result is independent of the ambient working directory.  In
particular `\\.\PhysicalDrive0` resolves to `\\.\PhysicalDrive0` verbatim,
with its `\\.\` prefix written exactly once. -/
theorem c6_full_path_types_ignore_cwd :
    (∀ (path cwd₁ cwd₂ : List Char) (t : PathType),
      libcpath_path_get_path_type (some path) path.length = .ok t →
      (t = .device ∨ t = .extendedLength ∨ t = .extendedLengthUnc ∨ t = .unc) →
      libcpath_path_get_full_path_windows cwd₁ path =
        libcpath_path_get_full_path_windows cwd₂ path)
    ∧ (∀ cwd, libcpath_path_get_full_path_windows cwd ("\\\\.\\PhysicalDrive0".toList) =
        .ok ⟨("\\\\.\\PhysicalDrive0\\".toList), 19⟩
      ∧ FullPathResult.str ⟨("\\\\.\\PhysicalDrive0\\".toList), 19⟩ =
        ("\\\\.\\PhysicalDrive0".toList)) := by
  constructor
  · intro path cwd₁ cwd₂ t h ht
    obtain ⟨h0, h1⟩ := getPathType_ok_bounds h
    simp only [libcpath_path_get_full_path_windows, if_neg h0, if_neg h1, h]
    cases hv : libcpath_path_get_volume_name (some path) path.length with
    | error e => rfl
    | ok pv =>
      dsimp only
      have hc : ¬(t ≠ PathType.device ∧ t ≠ PathType.extendedLength ∧
          t ≠ PathType.extendedLengthUnc ∧ t ≠ PathType.unc) := by
        rcases ht with h' | h' | h' | h' <;> simp [h']
      rw [if_neg hc, if_neg hc]
  · exact fun _ => ⟨rfl, rfl⟩

/-- classify_path succeeds on every non-null path within the length guards. -/
theorem getPathType_total (p : List Char) (n : Nat) (h0 : n ≠ 0)
    (h1 : n ≤ SSIZE_MAX - 1) :
    ∃ t, libcpath_path_get_path_type (some p) n = .ok t := by
  rw [libcpath_path_get_path_type, if_neg h0, if_neg (by omega)]
  split_ifs <;> exact ⟨_, rfl⟩

/-- get_volume_name succeeds on every non-null path within the length guards:
the separator scans stay at or below `path_length`, so the missing-share-name
branch can never fire. -/
theorem getVolumeName_total (p : List Char) (n : Nat) (h0 : n ≠ 0)
    (h1 : n ≤ SSIZE_MAX - 1) :
    ∃ v, libcpath_path_get_volume_name (some p) n = .ok v := by
  rw [libcpath_path_get_volume_name, if_neg h0, if_neg (by omega)]
  have hvni : volumeNameIndex p n ≤ n := volumeNameIndex_le p n
  have hscan : scanToSeparator p n (volumeNameIndex p n) ≤ n :=
    scanToSeparator_le p n _ hvni
  dsimp only
  split_ifs <;> first
    | exact ⟨_, rfl⟩
    | (exfalso; omega)

/-- C8, counterexample: the length guard of classify_path and get_volume_name
uses `SSIZE_MAX - 1`, not `SIZE_MAX - 1`: a call whose `path_length` argument
is `SSIZE_MAX` — a length within the claim's accepted range `[1, SIZE_MAX-1]`
— is rejected with InvalidArgument.  The guard fires before any character of
the path is read, so the concrete one-character path stands in for a string
of that length. -/
theorem c8_ssizemax_length_rejected :
    libcpath_path_get_path_type (some (['a'])) SSIZE_MAX = .error .invalidArgument
    ∧ libcpath_path_get_volume_name (some (['a'])) SSIZE_MAX = .error .invalidArgument
    ∧ 1 ≤ SSIZE_MAX ∧ SSIZE_MAX ≤ SIZE_MAX - 1 := by
  refine ⟨rfl, rfl, by norm_num [SSIZE_MAX], by norm_num [SSIZE_MAX, SIZE_MAX]⟩

/-- C8, amended: classify_path and get_volume_name accept every non-null path
whose length lies in `[1, SSIZE_MAX-1]`, and fail with InvalidArgument
exactly when the path is null, its length is zero, or its length is beyond
`SSIZE_MAX-1`.  (In particular get_volume_name never fails for any in-range
input: its missing-share-name branch is unreachable.) -/
theorem c8_amended_validation_bounds :
    ∀ (path : Option (List Char)) (path_length : Nat),
      ((path = none ∨ path_length = 0 ∨ path_length > SSIZE_MAX - 1) →
        libcpath_path_get_path_type path path_length = .error .invalidArgument
        ∧ libcpath_path_get_volume_name path path_length = .error .invalidArgument)
      ∧ (∀ p, path = some p → path_length ≠ 0 → path_length ≤ SSIZE_MAX - 1 →
        (∃ t, libcpath_path_get_path_type path path_length = .ok t)
        ∧ (∃ v, libcpath_path_get_volume_name path path_length = .ok v)) := by
  intro path n
  constructor
  · intro h
    rcases path with _ | p
    · exact ⟨rfl, rfl⟩
    · rcases h with h | h | h
      · exact absurd h (by simp)
      · rw [libcpath_path_get_path_type, libcpath_path_get_volume_name,
          if_pos h, if_pos h]
        exact ⟨rfl, rfl⟩
      · have h0 : ¬n = 0 := by
          intro h0
          rw [h0] at h
          exact absurd h (by decide)
        rw [libcpath_path_get_path_type, libcpath_path_get_volume_name,
          if_neg h0, if_neg h0, if_pos h, if_pos h]
        exact ⟨rfl, rfl⟩
  · intro p hp h0 h1
    subst hp
    exact ⟨getPathType_total p n h0 h1, getVolumeName_total p n h0 h1⟩

/-- Witness for `c8_amended_validation_bounds` at concrete inputs. -/
theorem c8_amended_validation_bounds_witness :
    (libcpath_path_get_path_type none 5 = .error .invalidArgument
      ∧ libcpath_path_get_volume_name none 5 = .error .invalidArgument)
    ∧ ((∃ t, libcpath_path_get_path_type (some (['a'])) 1 = .ok t)
      ∧ (∃ v, libcpath_path_get_volume_name (some (['a'])) 1 = .ok v)) :=
  ⟨(c8_amended_validation_bounds none 5).1 (Or.inl rfl),
   (c8_amended_validation_bounds (some (['a'])) 1).2 ['a'] rfl (by decide)
     (by norm_num [SSIZE_MAX])⟩

/-- Witness for `c6_full_path_types_ignore_cwd` at concrete inputs. -/
theorem c6_full_path_types_ignore_cwd_witness :
    libcpath_path_get_full_path_windows ("C:\\one".toList)
      ("\\\\.\\PhysicalDrive0".toList) =
    libcpath_path_get_full_path_windows ("D:\\two".toList)
      ("\\\\.\\PhysicalDrive0".toList)
    ∧ libcpath_path_get_full_path_windows ("C:\\one".toList)
        ("\\\\.\\PhysicalDrive0".toList) =
      .ok ⟨("\\\\.\\PhysicalDrive0\\".toList), 19⟩ :=
  ⟨c6_full_path_types_ignore_cwd.1 _ _ _ PathType.device rfl (Or.inl rfl),
   (c6_full_path_types_ignore_cwd.2 _).1⟩

/-- Reading `path[i]` is reading position 0 of the `i`-dropped list. -/
theorem charAt_drop (f : List Char) (i : Nat) :
    charAt f i = charAt (f.drop i) 0 := by
  simp [charAt, List.getD_eq_getElem?_getD, List.getElem?_drop]

/-- The trailing-separator strip only inspects the first `n` characters. -/
theorem joinStripTrailing_append (l t : List Char) :
    ∀ n, n ≤ l.length → joinStripTrailing (l ++ t) n = joinStripTrailing l n := by
  intro n
  induction n with
  | zero => intro _; rfl
  | succ m ih =>
    intro h
    rw [joinStripTrailing, joinStripTrailing]
    have hc : charAt (l ++ t) m = charAt l m := by
      simp [charAt, List.getElem?_append_left (by omega : m < l.length)]
    rw [hc, ih (by omega)]

/-- The trailing-separator strip loop of `libcpath_path_join` computes the
length of the directory name with all trailing separators removed, and taking
that many characters yields exactly the stripped directory name. -/
theorem joinStripTrailing_spec (l : List Char) :
    joinStripTrailing l l.length =
      ((l.reverse.dropWhile (fun c => c = LIBCPATH_SEPARATOR)).reverse).length
    ∧ l.take (joinStripTrailing l l.length) =
      (l.reverse.dropWhile (fun c => c = LIBCPATH_SEPARATOR)).reverse := by
  induction l using List.reverseRecOn with
  | nil => exact ⟨rfl, rfl⟩
  | append_singleton l a ih =>
    have hlen : (l ++ [a]).length = l.length + 1 := by simp
    have hca : charAt (l ++ [a]) l.length = a := by
      simp [charAt, List.getD_append_right _ _ _ _ (le_refl l.length)]
    rw [hlen, joinStripTrailing, hca]
    by_cases ha : a = LIBCPATH_SEPARATOR
    · rw [if_neg (by simpa using ha)]
      rw [joinStripTrailing_append l [a] l.length (le_refl _)]
      have hd : ((l ++ [a]).reverse.dropWhile (fun c => c = LIBCPATH_SEPARATOR)) =
          (l.reverse.dropWhile (fun c => c = LIBCPATH_SEPARATOR)) := by
        simp [List.dropWhile, ha]
      rw [hd]
      refine ⟨ih.1, ?_⟩
      rw [List.take_append_of_le_length, ih.2]
      have h2 : ((l.reverse.dropWhile
          (fun c => c = LIBCPATH_SEPARATOR)).reverse).length ≤ l.length := by
        calc ((l.reverse.dropWhile (fun c => c = LIBCPATH_SEPARATOR)).reverse).length
            ≤ l.reverse.length := by
              simpa using (List.dropWhile_sublist (l := l.reverse)
                (fun c => decide (c = LIBCPATH_SEPARATOR))).length_le
          _ = l.length := by simp
      omega
    · rw [if_pos (by simpa using ha)]
      have hd : ((l ++ [a]).reverse.dropWhile (fun c => c = LIBCPATH_SEPARATOR)) =
          a :: l.reverse := by
        simp [List.dropWhile, ha]
      rw [hd]
      constructor
      · simp
      · simp

/-- The leading-separator strip loop of `libcpath_path_join`, run on the
suffix of `f` starting at `i`, advances the index over exactly the leading
separators of that suffix and leaves the length of the remainder. -/
theorem joinStripLeading_spec :
    ∀ (suffix f : List Char) (i : Nat), f.drop i = suffix →
      joinStripLeading f i suffix.length =
        (i + (suffix.takeWhile (fun c => c = LIBCPATH_SEPARATOR)).length,
         (suffix.dropWhile (fun c => c = LIBCPATH_SEPARATOR)).length) := by
  intro suffix
  induction suffix with
  | nil => intro f i h; simp [joinStripLeading]
  | cons c rest ih =>
    intro f i h
    have hc : charAt f i = c := by
      rw [charAt_drop, h]; rfl
    have hdrop : f.drop (i + 1) = rest := by
      have h2 : f.drop (i + 1) = (f.drop i).drop 1 := by rw [List.drop_drop]
      rw [h2, h]
      rfl
    rw [List.length_cons, joinStripLeading, hc]
    by_cases hcs : c = LIBCPATH_SEPARATOR
    · rw [if_neg (by simpa using hcs)]
      rw [ih f (i + 1) hdrop]
      simp only [List.takeWhile_cons, List.dropWhile_cons, hcs, Prod.mk.injEq]
      norm_num
      omega
    · rw [if_pos (by simpa using hcs)]
      simp [List.takeWhile_cons, List.dropWhile_cons, hcs]

/-- Dropping as many characters as the matching prefix is `dropWhile`. -/
theorem drop_takeWhile_length (f : List Char) (p : Char → Bool) :
    f.drop (f.takeWhile p).length = f.dropWhile p := by
  induction f with
  | nil => rfl
  | cons c rest ih =>
    by_cases h : p c
    · simp [List.takeWhile_cons, List.dropWhile_cons, h, ih]
    · simp [List.takeWhile_cons, List.dropWhile_cons, h]

/-- C7: join strips every trailing separator from the directory and every
leading separator from the filename, then returns
`directory + separator + filename` with reported size
`stripped-directory-length + stripped-filename-length + 2` (content plus
terminator); with both inputs empty (in particular when both consist only of
separators, so that both strip to empty) the result is a single separator. -/
theorem c7_join_strips_and_concatenates :
    (∀ (directory_name filename : List Char),
      directory_name.length ≤ SSIZE_MAX → filename.length ≤ SSIZE_MAX →
      libcpath_path_join directory_name directory_name.length
          filename filename.length =
        .ok ((directory_name.reverse.dropWhile
                (fun c => c = LIBCPATH_SEPARATOR)).reverse
              ++ LIBCPATH_SEPARATOR ::
                filename.dropWhile (fun c => c = LIBCPATH_SEPARATOR),
             ((directory_name.reverse.dropWhile
                (fun c => c = LIBCPATH_SEPARATOR)).reverse).length
              + (filename.dropWhile (fun c => c = LIBCPATH_SEPARATOR)).length
              + 2))
    ∧ libcpath_path_join [] 0 [] 0 = .ok ([LIBCPATH_SEPARATOR], 2)
    ∧ libcpath_path_join ("///".toList) 3 ("//".toList) 2 =
        .ok ([LIBCPATH_SEPARATOR], 2) := by
  refine ⟨?_, rfl, rfl⟩
  intro d f hd hf
  rw [libcpath_path_join, if_neg (by omega), if_neg (by omega)]
  dsimp only
  rw [joinStripLeading_spec f f 0 rfl]
  dsimp only
  rw [Nat.zero_add, drop_takeWhile_length, List.take_length,
    (joinStripTrailing_spec d).2, (joinStripTrailing_spec d).1]

/-- Witness for `c7_join_strips_and_concatenates` at the spec's examples. -/
theorem c7_join_strips_and_concatenates_witness :
    libcpath_path_join ("/a/b/".toList) 5 ("/c".toList) 2 =
      .ok (("/a/b/c".toList), 7)
    ∧ libcpath_path_join ("/a/b".toList) 4 ("c".toList) 1 =
      .ok (("/a/b/c".toList), 7) := by
  constructor
  · have h := c7_join_strips_and_concatenates.1 ("/a/b/".toList) ("/c".toList)
      (by norm_num [SSIZE_MAX]) (by norm_num [SSIZE_MAX])
    exact h.trans rfl
  · have h := c7_join_strips_and_concatenates.1 ("/a/b".toList) ("c".toList)
      (by norm_num [SSIZE_MAX]) (by norm_num [SSIZE_MAX])
    exact h.trans rfl

/-- C10: for every character, the sanitized-character size is exactly 1, 2,
or 4; equivalently the guard of get_sanitized_character's invalid-size error
branch (`size ≠ 1 ∧ size ≠ 2 ∧ size ≠ 4`) can never hold for a size obtained
from get_sanitized_character_size, making that branch unreachable; and size 1
is assigned precisely for characters that pass through unchanged (the emitted
characters are the single input character itself exactly when the size is 1). -/
theorem c10_sanitized_character_size_well_formed :
    ∀ character : Int, -128 ≤ character → character ≤ 127 →
      (libcpath_path_get_sanitized_character_size character = 1 ∨
       libcpath_path_get_sanitized_character_size character = 2 ∨
       libcpath_path_get_sanitized_character_size character = 4)
      ∧ ¬(libcpath_path_get_sanitized_character_size character ≠ 1 ∧
          libcpath_path_get_sanitized_character_size character ≠ 2 ∧
          libcpath_path_get_sanitized_character_size character ≠ 4)
      ∧ (libcpath_path_get_sanitized_character_size character = 1 ↔
         sanitizedCharacterChars character
           (libcpath_path_get_sanitized_character_size character) =
           [Char.ofNat (character.emod 256).toNat]) := by
  intro c h1 h2
  unfold libcpath_path_get_sanitized_character_size
  split_ifs <;> refine ⟨by simp, by simp, ?_⟩ <;> simp [sanitizedCharacterChars]

/-- Witness for `c10_sanitized_character_size_well_formed` at character 65. -/
theorem c10_sanitized_character_size_well_formed_witness :
    (libcpath_path_get_sanitized_character_size 65 = 1 ∨
     libcpath_path_get_sanitized_character_size 65 = 2 ∨
     libcpath_path_get_sanitized_character_size 65 = 4)
    ∧ ¬(libcpath_path_get_sanitized_character_size 65 ≠ 1 ∧
        libcpath_path_get_sanitized_character_size 65 ≠ 2 ∧
        libcpath_path_get_sanitized_character_size 65 ≠ 4)
    ∧ (libcpath_path_get_sanitized_character_size 65 = 1 ↔
       sanitizedCharacterChars 65 (libcpath_path_get_sanitized_character_size 65) =
         [Char.ofNat ((65 : Int).emod 256).toNat]) :=
  c10_sanitized_character_size_well_formed 65 (by decide) (by decide)

theorem joinSep_eq_intercalate (sep : Char) :
    ∀ segs : List (List Char), joinSep sep segs = [sep].intercalate segs := by
  intro segs
  induction segs with
  | nil => rfl
  | cons c rest ih =>
    cases rest with
    | nil => simp [joinSep, List.intercalate]
    | cons c2 t =>
      rw [joinSep, ih]
      simp [List.intercalate, List.intersperse]

theorem getD_drop_zero {α : Type} (l : List α) (i : Nat) (d : α) :
    l.getD i d = (l.drop i).getD 0 d := by
  simp [List.getD_eq_getElem?_getD, List.getElem?_drop]

theorem dotdot_iff (c : List Char) :
    (c.length + 1 = 3 ∧ charAt c 0 = '.' ∧ charAt c 1 = '.') ↔ c = ['.', '.'] := by
  constructor
  · rintro ⟨h1, h2, h3⟩
    have h1' : c.length = 2 := by omega
    obtain ⟨a, b, rfl⟩ := List.length_eq_two.mp h1'
    simp [charAt] at h2 h3
    simp [h2, h3]
  · rintro rfl
    exact ⟨rfl, rfl, rfl⟩

theorem dot_iff (c : List Char) :
    (c.length + 1 = 2 ∧ charAt c 0 = '.') ↔ c = ['.'] := by
  constructor
  · rintro ⟨h1, h2⟩
    have h1' : c.length = 1 := by omega
    obtain ⟨a, rfl⟩ := List.length_eq_one.mp h1'
    simp [charAt] at h2
    simp [h2]
  · rintro rfl
    exact ⟨rfl, rfl⟩

theorem emptyseg_iff (c : List Char) : (c.length + 1 ≤ 1) ↔ c = [] := by
  constructor
  · intro h
    exact List.length_eq_zero.mp (by omega)
  · rintro rfl
    decide

theorem segGet_ok (segs : Segs) (i : Nat) (v : Option (List Char))
    (hi : (i : Int) < (segs.length : Int)) (hseg : segs.getD i none = v) :
    segGet segs (i : Int) = .ok v := by
  rw [segGet, if_pos ⟨Int.natCast_nonneg i, hi⟩, Int.toNat_natCast, hseg]

theorem pass1Step_name (st : Pass1State) (i : Nat) (c : List Char)
    (hi : (i : Int) < (st.pathSegs.length : Int))
    (hseg : st.pathSegs.getD i none = some c)
    (h1 : c ≠ []) (h2 : c ≠ ['.']) (h3 : c ≠ ['.', '.']) :
    pass1Step st i =
      .ok { st with size := addSize st.size (c.length + 1), lastUsed := (i : Int) } := by
  have hd3 : ¬(c.length + 1 = 3 ∧ charAt c 0 = '.' ∧ charAt c 1 = '.') := by
    rw [dotdot_iff]; exact h3
  have hd2 : ¬(c.length + 1 = 2 ∧ charAt c 0 = '.') := by
    rw [dot_iff]; exact h2
  have hd1 : ¬(c.length + 1 ≤ 1) := by
    rw [emptyseg_iff]; exact h1
  rw [pass1Step, segGet_ok st.pathSegs i (some c) hi hseg]
  dsimp only
  rw [if_neg hd3, if_neg hd2, if_neg hd1]

theorem pass1Step_emptyseg (st : Pass1State) (i : Nat)
    (hi : (i : Int) < (st.pathSegs.length : Int))
    (hseg : st.pathSegs.getD i none = some []) :
    pass1Step st i = .ok { st with pathSegs := st.pathSegs.set i none } := by
  rw [pass1Step, segGet_ok st.pathSegs i (some []) hi hseg]
  rfl

theorem pass1State_eq (a b : Pass1State) (h1 : a.cwdSegs = b.cwdSegs)
    (h2 : a.cwdIdx = b.cwdIdx) (h3 : a.pathSegs = b.pathSegs)
    (h4 : a.lastUsed = b.lastUsed) (h5 : a.size = b.size) : a = b := by
  cases a
  cases b
  simp_all

theorem pass1_clean :
    ∀ (rest : List (List Char)) (st : Pass1State) (i : Nat),
      st.pathSegs.drop i = rest.map some →
      (∀ c ∈ rest, c ≠ [] ∧ c ≠ ['.'] ∧ c ≠ ['.', '.']) →
      st.size + segmentsTotalSize rest < 2 ^ 64 →
      (List.range' i rest.length).foldlM pass1Step st =
        .ok { st with size := st.size + segmentsTotalSize rest,
                      lastUsed := if rest.isEmpty then st.lastUsed
                                  else ((i + rest.length - 1 : Nat) : Int) } := by
  intro rest
  induction rest with
  | nil =>
    intro st i hdrop hclean hsz
    rfl
  | cons c cs ih =>
    intro st i hdrop hclean hsz
    have hlen : st.pathSegs.length - i = cs.length + 1 := by
      have := congrArg List.length hdrop
      simpa using this
    have hi : (i : Int) < (st.pathSegs.length : Int) := by
      have : i < st.pathSegs.length := by omega
      exact_mod_cast this
    have hseg : st.pathSegs.getD i none = some c := by
      rw [getD_drop_zero, hdrop]
      rfl
    have hc := hclean c (by simp)
    have htot : segmentsTotalSize (c :: cs) =
        (c.length + 1) + segmentsTotalSize cs := by
      simp [segmentsTotalSize]
    have hadd : addSize st.size (c.length + 1) = st.size + (c.length + 1) := by
      rw [addSize]
      exact Nat.mod_eq_of_lt (by rw [htot] at hsz; omega)
    have key : (List.range' i (c :: cs).length).foldlM pass1Step st
        = (List.range' (i + 1) cs.length).foldlM pass1Step
            { st with size := st.size + (c.length + 1), lastUsed := (i : Int) } := by
      rw [List.length_cons, List.range'_succ, List.foldlM_cons,
        pass1Step_name st i c hi hseg hc.1 hc.2.1 hc.2.2, hadd]
      rfl
    have hdrop' : st.pathSegs.drop (i + 1) = cs.map some := by
      have h2 : st.pathSegs.drop (i + 1) = (st.pathSegs.drop i).drop 1 := by
        rw [List.drop_drop]
      rw [h2, hdrop]
      rfl
    have hstep := ih { st with size := st.size + (c.length + 1), lastUsed := (i : Int) }
      (i + 1) hdrop' (fun x hx => hclean x (by simp [hx]))
      (by show st.size + (c.length + 1) + segmentsTotalSize cs < 2 ^ 64; omega)
    rw [key, hstep]
    refine congrArg Except.ok (pass1State_eq _ _ rfl rfl rfl ?_ ?_)
    · show (if cs.isEmpty then ((i : Int)) else ((i + 1 + cs.length - 1 : Nat) : Int)) =
        (if (c :: cs).isEmpty then st.lastUsed else ((i + (c :: cs).length - 1 : Nat) : Int))
      cases cs with
      | nil => simp
      | cons c2 t =>
        rw [if_neg (by simp), if_neg (by simp)]
        congr 1
        simp
        omega
    · show st.size + (c.length + 1) + segmentsTotalSize cs =
        st.size + segmentsTotalSize (c :: cs)
      rw [htot]
      omega

theorem writeSegments_acc (sep : Char) :
    ∀ (segs : Segs) (acc : List Char),
      segs.foldl (fun acc seg =>
        match seg with
        | none => acc
        | some c => acc ++ c ++ [sep]) acc = acc ++ (segs.map (segWrite sep)).flatten := by
  intro segs
  induction segs with
  | nil => intro acc; simp
  | cons s rest ih =>
    intro acc
    rw [List.foldl_cons, ih]
    cases s with
    | none => simp [segWrite]
    | some c => simp [segWrite]

theorem writeSegments_eq (sep : Char) (segs : Segs) :
    writeSegments sep segs = (segs.map (segWrite sep)).flatten := by
  rw [writeSegments, writeSegments_acc]
  rfl

theorem flatten_sepAppend (sep : Char) :
    ∀ segs : List (List Char), segs ≠ [] →
      ((segs.map some).map (segWrite sep)).flatten = joinSep sep segs ++ [sep] := by
  intro segs
  induction segs with
  | nil => intro h; exact absurd rfl h
  | cons c rest ih =>
    intro _
    cases rest with
    | nil => simp [segWrite, joinSep]
    | cons c2 t =>
      have := ih (by simp)
      simp only [List.map_cons, List.flatten_cons] at this ⊢
      rw [this, joinSep]
      simp [segWrite]

theorem segmentsTotalSize_eq (sep : Char) :
    ∀ segs : List (List Char), segs ≠ [] →
      segmentsTotalSize segs = (joinSep sep segs).length + 1 := by
  intro segs hne
  have h1 : (((segs.map some).map (segWrite sep)).flatten).length =
      (joinSep sep segs ++ [sep]).length := by rw [flatten_sepAppend sep segs hne]
  simp only [List.length_flatten, List.map_map, List.length_append] at h1
  have h2 : (List.map (List.length ∘ segWrite sep ∘ some) segs) =
      (List.map (fun c => c.length + 1) segs) := by
    refine List.map_congr_left ?_
    intro c _
    simp [segWrite]
  rw [h2] at h1
  simp only [List.length_cons, List.length_nil] at h1
  rw [segmentsTotalSize]
  omega

theorem splitOn_slash (segs : List (List Char)) (hne : segs ≠ [])
    (hv : ∀ c ∈ segs, ('/' : Char) ∉ c) :
    ('/' :: joinSep '/' segs).splitOn '/' = [] :: segs := by
  have h1 : '/' :: joinSep '/' segs = ['/'].intercalate ([] :: segs) := by
    rw [← joinSep_eq_intercalate]
    cases segs with
    | nil => exact absurd rfl hne
    | cons c t => rfl
  rw [h1, List.splitOn_intercalate]
  · intro l hl
    rcases List.mem_cons.mp hl with hl | hl
    · subst hl; simp
    · exact hv l hl
  · simp

theorem posixResolve_normalized (segs : List (List Char)) (hne : segs ≠ [])
    (hv : ∀ c ∈ segs, validSegment '/' c)
    (hlen : ('/' :: joinSep '/' segs).length ≤ SSIZE_MAX - 1) (cwd : List Char) :
    libcpath_path_get_full_path_posix cwd ('/' :: joinSep '/' segs) =
      .ok ⟨('/' :: joinSep '/' segs) ++ ['/'], ('/' :: joinSep '/' segs).length + 1⟩ := by
  have hslash : ∀ c ∈ segs, ('/' : Char) ∉ c := fun c hc => (hv c hc).2.2.2
  have hsp : ('/' :: joinSep '/' segs).splitOn '/' = [] :: segs :=
    splitOn_slash segs hne hslash
  have hplen : ('/' :: joinSep '/' segs).length = (joinSep '/' segs).length + 1 := by
    simp
  have htot : segmentsTotalSize segs = (joinSep '/' segs).length + 1 :=
    segmentsTotalSize_eq '/' segs hne
  have hSS : SSIZE_MAX = 2 ^ 63 - 1 := rfl
  have hpass : pass1 none 0 ((([] : List Char) :: segs).map some) 1 =
      .ok ⟨none, 0, none :: segs.map some, (segs.length : Int),
           1 + segmentsTotalSize segs⟩ := by
    rw [pass1]
    have hlen1 : ((([] : List Char) :: segs).map some).length = segs.length + 1 := by
      simp
    rw [hlen1, List.range_eq_range', List.range'_succ, List.foldlM_cons]
    have hstep0 := pass1Step_emptyseg
      ⟨none, 0, (([] : List Char) :: segs).map some, -1, 1⟩ 0
      (by simp) rfl
    rw [hstep0]
    have hcl := pass1_clean segs
      ⟨none, 0, none :: segs.map some, -1, 1⟩ 1
      rfl (fun c hc => ⟨(hv c hc).1, (hv c hc).2.1, (hv c hc).2.2.1⟩)
      (by dsimp only; omega)
    have hbind : ((Except.ok (⟨none, 0, none :: segs.map some, -1, 1⟩ : Pass1State) :
        Except ErrorKind Pass1State) >>= fun s =>
          (List.range' 1 segs.length).foldlM pass1Step s) =
        (List.range' 1 segs.length).foldlM pass1Step
          ⟨none, 0, none :: segs.map some, -1, 1⟩ := rfl
    rw [show ((([] : List Char) :: segs).map some).set 0 none = none :: segs.map some
      from rfl] at hstep0 ⊢
    rw [hbind]
    rw [hcl]
    have hemp : segs.isEmpty = false := by
      cases segs with
      | nil => exact absurd rfl hne
      | cons a b => rfl
    rw [hemp]
    refine congrArg Except.ok (pass1State_eq _ _ rfl rfl rfl ?_ ?_)
    · simp
    · rfl
  have hw : writeSegments '/' (none :: segs.map some) = joinSep '/' segs ++ ['/'] := by
    rw [writeSegments_eq]
    have : (List.map (segWrite '/') (none :: segs.map some)) =
        [] :: (segs.map some).map (segWrite '/') := by simp [segWrite]
    rw [this, List.flatten_cons, List.nil_append, flatten_sepAppend '/' segs hne]
  rw [libcpath_path_get_full_path_posix]
  rw [if_neg (by simp), if_neg (by omega),
    if_pos (show charAt ('/' :: joinSep '/' segs) 0 = '/' from rfl)]
  rw [posixResolveCore]
  simp only [Option.map_none', reduceIte]
  rw [stringSplit, hsp, hpass]
  dsimp only
  rw [if_neg (show ¬(1 + segmentsTotalSize segs > SSIZE_MAX) by omega)]
  rw [hw]
  refine congrArg Except.ok ?_
  refine congrArg₂ FullPathResult.mk ?_ ?_
  · simp
  · omega

theorem driveLetter_ne_backslash (d : Char) (hd : isDriveLetter d) : d ≠ '\\' := by
  rintro rfl
  rcases hd with ⟨h1, h2⟩ | ⟨h1, h2⟩
  · exact absurd h2 (by decide)
  · exact absurd h1 (by decide)

theorem getPathType_drive (d : Char) (hd : isDriveLetter d) (rest : List Char)
    (hlen : (d :: ':' :: '\\' :: rest).length ≤ SSIZE_MAX - 1) :
    libcpath_path_get_path_type (some (d :: ':' :: '\\' :: rest))
      (d :: ':' :: '\\' :: rest).length = .ok .absolute := by
  have hne := driveLetter_ne_backslash d hd
  rw [libcpath_path_get_path_type]
  rw [if_neg (by simp), if_neg (by omega)]
  rw [if_neg (fun h => hne h.2.1), if_neg (fun h => hne h.2.1),
    if_neg (show ¬charAt (d :: ':' :: '\\' :: rest) 0 = '\\' from hne)]
  rw [if_pos ⟨by simp, rfl, rfl, hd⟩]

theorem getVolumeName_drive_cwd (d : Char) (hd : isDriveLetter d) (w : List Char)
    (hlen : (d :: ':' :: w).length ≤ SSIZE_MAX - 1) :
    ∃ dni, libcpath_path_get_volume_name (some (d :: ':' :: w))
      (d :: ':' :: w).length = .ok ⟨some [d, ':'], 2, dni⟩ := by
  have hne := driveLetter_ne_backslash d hd
  rw [libcpath_path_get_volume_name, if_neg (by simp), if_neg (by omega)]
  dsimp only
  have hvni : volumeNameIndex (d :: ':' :: w) (d :: ':' :: w).length = 0 := by
    rw [volumeNameIndex, if_neg (fun h => hne h.2.1), if_neg (fun h => hne h.2.1)]
  rw [hvni]
  rw [if_pos ⟨by simp, Nat.zero_le _, rfl, hd⟩]
  by_cases hb : 0 + 2 < (d :: ':' :: w).length ∧ charAt (d :: ':' :: w) (0 + 2) = '\\'
  · rw [if_pos hb]
    refine ⟨0 + 2 + 1, ?_⟩
    rw [if_pos (show charAt (d :: ':' :: w) (0 + 2 + 1 - 1) = '\\' from hb.2)]
    have hsub : subSize (0 + 2 + 1 - 0) 1 = 2 := by norm_num [subSize]
    rw [hsub]
    rfl
  · rw [if_neg hb]
    refine ⟨0 + 2, ?_⟩
    rw [if_neg (show ¬charAt (d :: ':' :: w) (0 + 2 - 1) = '\\' from
      fun h => absurd (show ((':' : Char) = '\\') from h) (by decide))]
    rfl

theorem getVolumeName_drive_path (d : Char) (hd : isDriveLetter d) (rest : List Char)
    (hlen : (d :: ':' :: '\\' :: rest).length ≤ SSIZE_MAX - 1) :
    libcpath_path_get_volume_name (some (d :: ':' :: '\\' :: rest))
      (d :: ':' :: '\\' :: rest).length = .ok ⟨some [d, ':'], 2, 3⟩ := by
  have hne := driveLetter_ne_backslash d hd
  rw [libcpath_path_get_volume_name, if_neg (by simp), if_neg (by omega)]
  dsimp only
  have hvni : volumeNameIndex (d :: ':' :: '\\' :: rest)
      (d :: ':' :: '\\' :: rest).length = 0 := by
    rw [volumeNameIndex, if_neg (fun h => hne h.2.1), if_neg (fun h => hne h.2.1)]
  rw [hvni]
  rw [if_pos ⟨by simp, Nat.zero_le _, rfl, hd⟩]
  rw [if_pos (show 0 + 2 < (d :: ':' :: '\\' :: rest).length ∧
      charAt (d :: ':' :: '\\' :: rest) (0 + 2) = '\\' from ⟨by simp, rfl⟩)]
  rw [if_pos (show charAt (d :: ':' :: '\\' :: rest) (0 + 2 + 1 - 1) = '\\' from rfl)]
  have hsub : subSize (0 + 2 + 1 - 0) 1 = 2 := by norm_num [subSize]
  rw [hsub]
  rfl

theorem getPathType_extlen (d : Char) (rest : List Char)
    (hlen : ('\\' :: '\\' :: '?' :: '\\' :: d :: ':' :: '\\' :: rest).length ≤
      SSIZE_MAX - 1) :
    libcpath_path_get_path_type
      (some ('\\' :: '\\' :: '?' :: '\\' :: d :: ':' :: '\\' :: rest))
      ('\\' :: '\\' :: '?' :: '\\' :: d :: ':' :: '\\' :: rest).length =
      .ok .extendedLength := by
  rw [libcpath_path_get_path_type, if_neg (by simp), if_neg (by omega)]
  rw [if_pos ⟨by simp, rfl, rfl, Or.inr rfl, rfl⟩]
  rw [if_neg (show ¬charAt ('\\' :: '\\' :: '?' :: '\\' :: d :: ':' :: '\\' :: rest) 2 = '.'
    from fun h => absurd (show (('?' : Char) = '.') from h) (by decide))]
  rw [if_neg (show ¬(8 ≤ ('\\' :: '\\' :: '?' :: '\\' :: d :: ':' :: '\\' :: rest).length ∧
      charAt ('\\' :: '\\' :: '?' :: '\\' :: d :: ':' :: '\\' :: rest) 4 = 'U' ∧
      charAt ('\\' :: '\\' :: '?' :: '\\' :: d :: ':' :: '\\' :: rest) 5 = 'N' ∧
      charAt ('\\' :: '\\' :: '?' :: '\\' :: d :: ':' :: '\\' :: rest) 6 = 'C' ∧
      charAt ('\\' :: '\\' :: '?' :: '\\' :: d :: ':' :: '\\' :: rest) 7 = '\\')
    from fun h => absurd (show ((':' : Char) = 'N') from h.2.2.1) (by decide))]

theorem getVolumeName_extlen (d : Char) (hd : isDriveLetter d) (rest : List Char)
    (hlen : ('\\' :: '\\' :: '?' :: '\\' :: d :: ':' :: '\\' :: rest).length ≤
      SSIZE_MAX - 1) :
    libcpath_path_get_volume_name
      (some ('\\' :: '\\' :: '?' :: '\\' :: d :: ':' :: '\\' :: rest))
      ('\\' :: '\\' :: '?' :: '\\' :: d :: ':' :: '\\' :: rest).length =
      .ok ⟨some [d, ':'], 2, 7⟩ := by
  rw [libcpath_path_get_volume_name, if_neg (by simp), if_neg (by omega)]
  dsimp only
  have hvni : volumeNameIndex ('\\' :: '\\' :: '?' :: '\\' :: d :: ':' :: '\\' :: rest)
      ('\\' :: '\\' :: '?' :: '\\' :: d :: ':' :: '\\' :: rest).length = 4 := by
    rw [volumeNameIndex]
    rw [if_pos ⟨by simp, rfl, rfl, Or.inr rfl, rfl⟩]
    rw [if_neg (show ¬charAt ('\\' :: '\\' :: '?' :: '\\' :: d :: ':' :: '\\' :: rest) 2 = '.'
      from fun h => absurd (show (('?' : Char) = '.') from h) (by decide))]
    rw [if_neg (show ¬(8 ≤ ('\\' :: '\\' :: '?' :: '\\' :: d :: ':' :: '\\' :: rest).length ∧
        charAt ('\\' :: '\\' :: '?' :: '\\' :: d :: ':' :: '\\' :: rest) 4 = 'U' ∧
        charAt ('\\' :: '\\' :: '?' :: '\\' :: d :: ':' :: '\\' :: rest) 5 = 'N' ∧
        charAt ('\\' :: '\\' :: '?' :: '\\' :: d :: ':' :: '\\' :: rest) 6 = 'C' ∧
        charAt ('\\' :: '\\' :: '?' :: '\\' :: d :: ':' :: '\\' :: rest) 7 = '\\')
      from fun h => absurd (show ((':' : Char) = 'N') from h.2.2.1) (by decide))]
  rw [hvni]
  rw [if_pos ⟨by simp, by simp, rfl, hd⟩]
  rw [if_pos (show 4 + 2 < ('\\' :: '\\' :: '?' :: '\\' :: d :: ':' :: '\\' :: rest).length ∧
      charAt ('\\' :: '\\' :: '?' :: '\\' :: d :: ':' :: '\\' :: rest) (4 + 2) = '\\'
    from ⟨by simp, rfl⟩)]
  rw [if_pos (show charAt ('\\' :: '\\' :: '?' :: '\\' :: d :: ':' :: '\\' :: rest)
      (4 + 2 + 1 - 1) = '\\' from rfl)]
  have hsub : subSize (4 + 2 + 1 - 4) 1 = 2 := by norm_num [subSize]
  rw [hsub]
  rfl

theorem splitOn_backslash (segs : List (List Char)) (hne : segs ≠ [])
    (hv : ∀ c ∈ segs, ('\\' : Char) ∉ c) :
    (joinSep '\\' segs).splitOn '\\' = segs := by
  rw [joinSep_eq_intercalate, List.splitOn_intercalate]
  · exact hv
  · exact hne

theorem windowsResolveCore_drive (pt : PathType) (hpt_dev : pt ≠ .device)
    (hpt_rel : pt ≠ .relative) (hpt_unc : ¬(pt = .extendedLengthUnc ∨ pt = .unc))
    (path : List Char) (dni : Nat) (segs : List (List Char)) (hne : segs ≠ [])
    (hv : ∀ c ∈ segs, validSegment '\\' c)
    (hdrop : path.drop dni = joinSep '\\' segs)
    (cd : Option (List Char)) (cdni : Nat) (d : Char)
    (hsz : 7 + segmentsTotalSize segs ≤ SSIZE_MAX) :
    windowsResolveCore path pt dni (some [d, ':']) 2 cd cdni =
      .ok ⟨("\\\\?\\".toList ++ [d, ':', '\\']) ++ (joinSep '\\' segs ++ ['\\']),
           7 + segmentsTotalSize segs⟩ := by
  have hSS : SSIZE_MAX = 2 ^ 63 - 1 := rfl
  have hsz2 : 7 + segmentsTotalSize segs ≤ 2 ^ 63 - 1 := hSS ▸ hsz
  rw [windowsResolveCore.eq_def]
  dsimp only
  rw [hdrop, stringSplit]
  rw [splitOn_backslash segs hne (fun c hc => (hv c hc).2.2.2)]
  rw [if_neg hpt_unc, if_neg (show ¬(pt = PathType.relative ∧ cdni <
      (match cd with | some c => c.length + 1 | none => 0)) from fun h => hpt_rel h.1)]
  rw [show addSize (addSize (addSize 4 (addSize 2 1)) 0) 0 = 7 from by norm_num [addSize]]
  generalize hcsp : (match cd with
    | some c => if cdni < (match cd with | some c2 => c2.length + 1 | none => 0) then
        some (stringSplit '\\' (c.drop cdni)) else none
    | none => (none : Option Segs)) = csp
  generalize hidx : (match csp with
    | some segs2 => ((segs2.length : Int)) - 1
    | none => (0 : Int)) = idx
  have hpass := pass1_clean segs ⟨csp, idx, segs.map some, -1, 7⟩ 0 rfl
    (fun c hc => ⟨(hv c hc).1, (hv c hc).2.1, (hv c hc).2.2.1⟩)
    (by show (7 : Nat) + segmentsTotalSize segs < 2 ^ 64; omega)
  rw [pass1, List.range_eq_range', List.length_map, hpass]
  dsimp only
  rw [if_neg (show ¬(7 + segmentsTotalSize segs > SSIZE_MAX) from by omega)]
  rw [if_neg hpt_dev, if_neg hpt_unc]
  rw [if_neg (show ¬(pt = PathType.relative ∧ csp.isSome = true) from fun h => hpt_rel h.1)]
  rw [writeSegments_eq]
  rw [flatten_sepAppend '\\' segs hne]
  refine congrArg Except.ok (congrArg₂ FullPathResult.mk ?_ rfl)
  simp

theorem windowsResolve_normalized (d : Char) (hd : isDriveLetter d)
    (segs : List (List Char))
    (hne : segs ≠ []) (hv : ∀ c ∈ segs, validSegment '\\' c) (w : List Char)
    (hlen : ('\\' :: '\\' :: '?' :: '\\' :: d :: ':' :: '\\' :: joinSep '\\' segs).length ≤
      SSIZE_MAX - 1)
    (hwlen : (d :: ':' :: w).length ≤ SSIZE_MAX - 1) :
    libcpath_path_get_full_path_windows (d :: ':' :: w)
        (d :: ':' :: '\\' :: joinSep '\\' segs) =
      .ok ⟨("\\\\?\\".toList ++ [d, ':', '\\']) ++ (joinSep '\\' segs ++ ['\\']),
           7 + segmentsTotalSize segs⟩
    ∧ ∀ cwd₂, libcpath_path_get_full_path_windows cwd₂
        ('\\' :: '\\' :: '?' :: '\\' :: d :: ':' :: '\\' :: joinSep '\\' segs) =
      .ok ⟨("\\\\?\\".toList ++ [d, ':', '\\']) ++ (joinSep '\\' segs ++ ['\\']),
           7 + segmentsTotalSize segs⟩ := by
  have hplen : (d :: ':' :: '\\' :: joinSep '\\' segs).length ≤ SSIZE_MAX - 1 := by
    have h1 : ('\\' :: '\\' :: '?' :: '\\' :: d :: ':' :: '\\' ::
        joinSep '\\' segs).length =
        (d :: ':' :: '\\' :: joinSep '\\' segs).length + 4 := by simp
    omega
  have htot : segmentsTotalSize segs = (joinSep '\\' segs).length + 1 :=
    segmentsTotalSize_eq '\\' segs hne
  have hsz : 7 + segmentsTotalSize segs ≤ SSIZE_MAX := by
    have h1 : ('\\' :: '\\' :: '?' :: '\\' :: d :: ':' :: '\\' ::
        joinSep '\\' segs).length = (joinSep '\\' segs).length + 7 := by simp
    have h2 : 1 ≤ SSIZE_MAX := by norm_num [SSIZE_MAX]
    omega
  constructor
  · rw [libcpath_path_get_full_path_windows]
    rw [if_neg (by simp), if_neg (by omega)]
    rw [getPathType_drive d hd (joinSep '\\' segs) hplen]
    dsimp only
    rw [getVolumeName_drive_path d hd (joinSep '\\' segs) hplen]
    dsimp only
    rw [if_pos ⟨by decide, by decide, by decide, by decide⟩]
    rw [if_neg (show ¬((some [d, ':']).isSome = true ∧ 2 > SSIZE_MAX - 1) from
      fun h => absurd h.2 (by norm_num [SSIZE_MAX]))]
    obtain ⟨dni, hcv⟩ := getVolumeName_drive_cwd d hd w hwlen
    rw [hcv]
    dsimp only
    exact windowsResolveCore_drive .absolute (by decide) (by decide) (by decide)
      (d :: ':' :: '\\' :: joinSep '\\' segs) 3 segs hne hv rfl
      (some (d :: ':' :: w)) dni d hsz
  · intro cwd₂
    rw [libcpath_path_get_full_path_windows]
    rw [if_neg (by simp), if_neg (by omega)]
    rw [getPathType_extlen d (joinSep '\\' segs) hlen]
    dsimp only
    rw [getVolumeName_extlen d hd (joinSep '\\' segs) hlen]
    dsimp only
    rw [if_neg (show ¬(PathType.extendedLength ≠ PathType.device ∧
        PathType.extendedLength ≠ PathType.extendedLength ∧
        PathType.extendedLength ≠ PathType.extendedLengthUnc ∧
        PathType.extendedLength ≠ PathType.unc) from fun h => h.2.1 rfl)]
    exact windowsResolveCore_drive .extendedLength (by decide) (by decide) (by decide)
      ('\\' :: '\\' :: '?' :: '\\' :: d :: ':' :: '\\' :: joinSep '\\' segs) 7 segs
      hne hv rfl none 0 d hsz

/-- C9: resolving an already-resolved path is a no-op. On POSIX, a normalized
absolute path (a leading separator, then nonempty non-dot separator-free
segments joined by single separators) within the length guard resolves, under
every current working directory, to a buffer holding the path plus a trailing
separator with size length + 1; the resulting string (the buffer with its last
character overwritten by the terminator) is the original path, and resolving
that result again, under any current working directory, returns the identical
outcome. On Windows, resolving a normalized drive-absolute path prepends the
extended-length prefix exactly once, the resulting string is the
extended-length form of the input, and resolving that extended-length result
again, under any current working directory, returns the identical outcome (the
prefix is not doubled and the current working directory is not consulted). -/
theorem c9_resolve_idempotent :
    (∀ (segs : List (List Char)) (cwd : List Char), segs ≠ [] →
        (∀ c ∈ segs, validSegment '/' c) →
        ('/' :: joinSep '/' segs).length ≤ SSIZE_MAX - 1 →
        libcpath_path_get_full_path_posix cwd ('/' :: joinSep '/' segs) =
          .ok ⟨('/' :: joinSep '/' segs) ++ ['/'],
               ('/' :: joinSep '/' segs).length + 1⟩ ∧
        (FullPathResult.mk (('/' :: joinSep '/' segs) ++ ['/'])
            (('/' :: joinSep '/' segs).length + 1)).str = '/' :: joinSep '/' segs ∧
        ∀ cwd₂, libcpath_path_get_full_path_posix cwd₂
            ((FullPathResult.mk (('/' :: joinSep '/' segs) ++ ['/'])
              (('/' :: joinSep '/' segs).length + 1)).str) =
          .ok ⟨('/' :: joinSep '/' segs) ++ ['/'],
               ('/' :: joinSep '/' segs).length + 1⟩) ∧
    (∀ (d : Char) (segs : List (List Char)) (w : List Char), isDriveLetter d →
        segs ≠ [] → (∀ c ∈ segs, validSegment '\\' c) →
        ('\\' :: '\\' :: '?' :: '\\' :: d :: ':' :: '\\' :: joinSep '\\' segs).length ≤
          SSIZE_MAX - 1 →
        (d :: ':' :: w).length ≤ SSIZE_MAX - 1 →
        libcpath_path_get_full_path_windows (d :: ':' :: w)
            (d :: ':' :: '\\' :: joinSep '\\' segs) =
          .ok ⟨("\\\\?\\".toList ++ [d, ':', '\\']) ++ (joinSep '\\' segs ++ ['\\']),
               7 + segmentsTotalSize segs⟩ ∧
        (FullPathResult.mk (("\\\\?\\".toList ++ [d, ':', '\\']) ++
            (joinSep '\\' segs ++ ['\\'])) (7 + segmentsTotalSize segs)).str =
          '\\' :: '\\' :: '?' :: '\\' :: d :: ':' :: '\\' :: joinSep '\\' segs ∧
        ∀ cwd₂, libcpath_path_get_full_path_windows cwd₂
            ((FullPathResult.mk (("\\\\?\\".toList ++ [d, ':', '\\']) ++
              (joinSep '\\' segs ++ ['\\'])) (7 + segmentsTotalSize segs)).str) =
          .ok ⟨("\\\\?\\".toList ++ [d, ':', '\\']) ++ (joinSep '\\' segs ++ ['\\']),
               7 + segmentsTotalSize segs⟩) := by
  constructor
  · intro segs cwd hne hv hlen
    have hstr : (FullPathResult.mk (('/' :: joinSep '/' segs) ++ ['/'])
        (('/' :: joinSep '/' segs).length + 1)).str = '/' :: joinSep '/' segs := by
      show (('/' :: joinSep '/' segs) ++ ['/']).dropLast = '/' :: joinSep '/' segs
      exact List.dropLast_concat
    refine ⟨posixResolve_normalized segs hne hv hlen cwd, hstr, ?_⟩
    intro cwd₂
    rw [hstr]
    exact posixResolve_normalized segs hne hv hlen cwd₂
  · intro d segs w hd hne hv hlen hwlen
    have hgen := windowsResolve_normalized d hd segs hne hv w hlen hwlen
    have hA : ("\\\\?\\".toList : List Char) = ['\\', '\\', '?', '\\'] := rfl
    have hstr : (FullPathResult.mk (("\\\\?\\".toList ++ [d, ':', '\\']) ++
        (joinSep '\\' segs ++ ['\\'])) (7 + segmentsTotalSize segs)).str =
        '\\' :: '\\' :: '?' :: '\\' :: d :: ':' :: '\\' :: joinSep '\\' segs := by
      show (("\\\\?\\".toList ++ [d, ':', '\\']) ++
        (joinSep '\\' segs ++ ['\\'])).dropLast =
        '\\' :: '\\' :: '?' :: '\\' :: d :: ':' :: '\\' :: joinSep '\\' segs
      rw [hA]
      rw [show ((['\\', '\\', '?', '\\'] ++ [d, ':', '\\']) ++
          (joinSep '\\' segs ++ ['\\'])) =
          (('\\' :: '\\' :: '?' :: '\\' :: d :: ':' :: '\\' :: joinSep '\\' segs) ++
            ['\\']) from by simp]
      exact List.dropLast_concat
    refine ⟨hgen.1, hstr, ?_⟩
    intro cwd₂
    rw [hstr]
    exact hgen.2 cwd₂

/-- Witness for `c9_resolve_idempotent`: resolving /a on POSIX yields /a/ with
size 3, resolving C:\a on Windows with cwd C: yields \\?\C:\a\ with size 9, and
resolving \\?\C:\a again (with an empty ambient cwd) yields the same result. -/
theorem c9_resolve_idempotent_witness :
    libcpath_path_get_full_path_posix [] ['/', 'a'] =
      .ok ⟨['/', 'a', '/'], 3⟩ ∧
    libcpath_path_get_full_path_windows ['C', ':'] ['C', ':', '\\', 'a'] =
      .ok ⟨['\\', '\\', '?', '\\', 'C', ':', '\\', 'a', '\\'], 9⟩ ∧
    libcpath_path_get_full_path_windows []
        ['\\', '\\', '?', '\\', 'C', ':', '\\', 'a'] =
      .ok ⟨['\\', '\\', '?', '\\', 'C', ':', '\\', 'a', '\\'], 9⟩ := by
  have hp := c9_resolve_idempotent.1 [['a']] [] (by decide) (by decide)
    (by norm_num [SSIZE_MAX, joinSep])
  have hw := c9_resolve_idempotent.2 'C' [['a']] [] (by decide) (by decide)
    (by decide) (by norm_num [SSIZE_MAX, joinSep]) (by norm_num [SSIZE_MAX])
  exact ⟨hp.1, hw.1, hw.2.2 []⟩

end Libcpath
